import Mathlib

/-!
Verification of the commit-it library (a Conventional Commits parser and
validator written in TypeScript) against its natural-language specification.

The development shallowly embeds the relevant source functions:

* `parseCommitMessage` (src/commit.ts): splits a raw commit message into
  subject / body / footer paragraphs, mirroring the JavaScript string and
  regular-expression semantics the source relies on
  (`split` on the multiline-anchored newline-run regex, `split` on newline
  runs, `trim`).
* `createRawConventionalCommit` / `intializeIndices` (src/conventionalCommit.ts):
  re-parses the first line of the subject with the structural pattern
  (named groups type, scope, breaking, separator, subject), embedded here as
  an explicit backtracking matcher with JavaScript greedy-quantifier
  semantics.
* the accessors of class `ConventionalCommit` (`scope`, `breaking`).
* the commit rules of src/requirements.ts (CC-01, CC-04, CC-05, CC-06, CC-15,
  EC-01, EC-02, WA-01), including the module-level mutable `description`
  fields, threaded explicitly as state.

Strings are modelled as `List Char`; all definitions are executable.
-/

/-- Strings are modelled as lists of characters. -/
abbrev Str := List Char

/-- ECMAScript LineTerminator characters (LF, CR, LINE SEPARATOR, PARAGRAPH
SEPARATOR); these are the positions after which a multiline caret assertion
matches. -/
def jsLineTerm (c : Char) : Bool :=
  c = '\n' || c = '\r' || c = ' ' || c = ' '

/-- The ECMAScript WhiteSpace ∪ LineTerminator character set: the exact
characters matched by the regex class of whitespace and removed by
`String.prototype.trim` / `trimEnd`. -/
def wsCharList : List Char :=
  [' ', '\t', '\n', '\u000b', '\u000c', '\r',
   '\u00a0', '\u1680', '\u2000', '\u2001', '\u2002', '\u2003',
   '\u2004', '\u2005', '\u2006', '\u2007', '\u2008', '\u2009',
   '\u200a', '\u2028', '\u2029', '\u202f', '\u205f', '\u3000',
   '\ufeff']

/-- Membership in the whitespace character set. -/
def jsWhitespaceChar (c : Char) : Bool := wsCharList.contains c

/-- The regex class `\w`: ASCII word characters. -/
def wordChar (c : Char) : Bool :=
  ('a' ≤ c && c ≤ 'z') || ('A' ≤ c && c ≤ 'Z') || ('0' ≤ c && c ≤ '9') ||
  c = '_'

/-- The regex class matching ASCII word characters or a hyphen. -/
def wordOrHyphenChar (c : Char) : Bool :=
  wordChar c || c = '-'

/-- An ASCII letter, i.e. a character matched by the regex class of letters
with the case-insensitive flag (as used by the noun test in
src/requirements.ts). -/
def asciiLetter (c : Char) : Bool :=
  ('a' ≤ c && c ≤ 'z') || ('A' ≤ c && c ≤ 'Z')

/-- `String.prototype.trimEnd`. -/
def jsTrimEnd (l : Str) : Str :=
  (l.reverse.dropWhile jsWhitespaceChar).reverse

/-- `String.prototype.trim`. -/
def jsTrim (l : Str) : Str :=
  jsTrimEnd (l.dropWhile jsWhitespaceChar)

/-- Characters that the newline-run split regexes consume (CR or LF only; the
character class in the source is literally CR and LF). -/
def crOrLf (c : Char) : Bool := c = '\n' || c = '\r'

/-- Worker for `splitParagraphs`: `cur` is the segment accumulated so far,
`atLS` records whether the current position is a line start (start of input or
immediately after a LineTerminator), which is where a multiline caret matches,
and `inRun` records whether we are inside a maximal CR/LF separator run. -/
def splitParagraphsGo (cur : Str) (atLS inRun : Bool) : Str → List Str
  | [] => [cur]
  | c :: cs =>
    if inRun then
      if crOrLf c then splitParagraphsGo cur atLS true cs
      else splitParagraphsGo (cur ++ [c]) (jsLineTerm c) false cs
    else if atLS && crOrLf c then
      cur :: splitParagraphsGo [] true true cs
    else
      splitParagraphsGo (cur ++ [c]) (jsLineTerm c) false cs

/-- JavaScript split of a message on the multiline-anchored regex of
newline runs (as in `parseCommitMessage`): a separator is a maximal run of
CR/LF characters beginning at a line start. -/
def splitParagraphs (l : Str) : List Str := splitParagraphsGo [] true false l

/-- Worker for `splitLinesRN`; `inRun` records whether we are inside a
maximal CR/LF separator run. -/
def splitLinesRNGo (cur : Str) (inRun : Bool) : Str → List Str
  | [] => [cur]
  | c :: cs =>
    if inRun then
      if crOrLf c then splitLinesRNGo cur true cs
      else splitLinesRNGo (cur ++ [c]) false cs
    else if crOrLf c then cur :: splitLinesRNGo [] true cs
    else splitLinesRNGo (cur ++ [c]) false cs

/-- JavaScript split of a paragraph on runs of CR/LF characters (as in
`isTrailerOnly`); a trailing separator contributes a final empty piece. -/
def splitLinesRN (l : Str) : List Str := splitLinesRNGo [] false l

/-- Drop a single trailing carriage return, as the optional-CR-then-LF
separator regex swallows the CR immediately preceding a LF. -/
def stripTrailingCR (l : Str) : Str :=
  match l.reverse with
  | '\r' :: rest => rest.reverse
  | _ => l

/-- Worker for `splitROptN`. -/
def splitROptNGo (cur : Str) (l : Str) : List Str :=
  match l with
  | [] => [cur]
  | c :: cs =>
    if c = '\n' then stripTrailingCR cur :: splitROptNGo [] cs
    else splitROptNGo (cur ++ [c]) cs

/-- JavaScript split of a string on the separator regex "an optional CR
followed by a LF". -/
def splitROptN (l : Str) : List Str := splitROptNGo [] l

/-- The first element of the optional-CR-then-LF split (a JS split of any
string is non-empty, so indexing with zero is total). -/
def firstLineOf (l : Str) : Str := (splitROptN l).headD []

/-- Join a list of strings with a LF (JavaScript `Array.prototype.join`). -/
def joinNL (ls : List Str) : Str := List.intercalate ['\n'] ls

/-- Space or tab, the class used by the continuation-line alternative of the
trailer grammar. -/
def spaceOrTab (c : Char) : Bool := c = ' ' || c = '\t'

/-- Does one trailer-grammar line match?  Mirrors the anchored alternation
regex from `parseCommitMessage` (src/commit.ts): the line starts with the
literal `BREAKING CHANGE:`, or with a non-empty run of word/hyphen characters
followed by a colon, or with a non-empty run of spaces/tabs followed by a word
character. -/
def matchesTrailerLine (line : Str) : Bool :=
  (("BREAKING CHANGE:".data).isPrefixOf line) ||
  (match line.dropWhile wordOrHyphenChar with
   | c :: _ => c = ':' && !(line.takeWhile wordOrHyphenChar).isEmpty
   | [] => false) ||
  (match line.dropWhile spaceOrTab with
   | c :: _ => !(line.takeWhile spaceOrTab).isEmpty && wordChar c
   | [] => false)

/-- `isTrailerOnly` from `parseCommitMessage` (src/commit.ts): every piece of
the CR/LF-run split of the paragraph matches the trailer-line grammar. -/
def isTrailerOnly (message : Str) : Bool :=
  (splitLinesRN message).all matchesTrailerLine

/-- Result of `parseCommitMessage`. -/
structure ParsedMessage where
  subject : Str
  body : Option Str
  footer : Option Str
deriving DecidableEq, Repr

/-- `parseCommitMessage` (src/commit.ts, lines 68–94): split the message into
paragraphs; if there is more than one paragraph and the last one is
trailer-only, extract it (trimmed) as the footer; join any remaining
paragraphs after the first with a LF and trim to form the body (dropped if
empty); the subject is the trimmed first paragraph. -/
def parseCommitMessage (message : Str) : ParsedMessage :=
  let paragraphs := splitParagraphs message
  let extract : Bool :=
    if 1 < paragraphs.length then isTrailerOnly (paragraphs.getLastD []) else false
  let footer := if extract then some (jsTrim (paragraphs.getLastD [])) else none
  let paragraphs := if extract then paragraphs.dropLast else paragraphs
  let body :=
    if 1 < paragraphs.length then
      let b := jsTrim (joinNL (paragraphs.drop 1))
      if b.isEmpty then none else some b
    else none
  { subject := jsTrim (paragraphs.headD []), body := body, footer := footer }


/-! ## The Conventional Commit field extractor (src/conventionalCommit.ts) -/

/-- The five named capture groups of the structural subject-line pattern.
`type` is an unconditional group (it always participates, possibly capturing
the empty string); the other four are optional groups. -/
structure CCGroups where
  type : Str
  scope : Option Str
  breaking : Option Str
  seperatorGrp : Option Str
  subjectGrp : Option Str
deriving DecidableEq, Repr

/-- A greedy star over the character class `p` with full backtracking, in
continuation-passing style: try the longest prefix of `p`-characters first and
on failure retry with ever shorter prefixes, calling `k consumed rest` for
each attempt.  This is exactly the ECMAScript semantics of a greedy `*`
quantifier over a character class. -/
def greedyFrom (p : Char → Bool) (k : Str → Str → Option α) (acc : Str) :
    Str → Option α
  | [] => k acc []
  | c :: cs =>
    if p c then
      (greedyFrom p k (acc ++ [c]) cs).orElse (fun _ => k acc (c :: cs))
    else k acc (c :: cs)

/-- The character class of the `type` group: any character other than an
opening parenthesis, an exclamation mark or a colon. -/
def isTypeChar (c : Char) : Bool := !(c = '(' || c = '!' || c = ':')

/-- The regex `.` without the dotAll flag: any character except a
LineTerminator. -/
def jsDotChar (c : Char) : Bool := !jsLineTerm c

/-- Match the tail `(?<subject>.*)?$` of the pattern.  The group is greedy and
optional; `$` (no multiline flag) only matches at the end of the input. -/
def matchSubjPart (t : Str) (sc br sep : Option Str) (rest : Str) :
    Option CCGroups :=
  (greedyFrom jsDotChar
      (fun subj r =>
        if r.isEmpty then some ⟨t, sc, br, sep, some subj⟩ else none)
      [] rest).orElse
    (fun _ => if rest.isEmpty then some ⟨t, sc, br, sep, none⟩ else none)

/-- The participate branch of the optional separator group: a colon followed
by a greedy run of whitespace, then the subject tail. -/
def sepAttempt (t : Str) (sc br : Option Str) : Str → Option CCGroups
  | [] => none
  | c :: r1 =>
    if c = ':' then
      greedyFrom jsWhitespaceChar
        (fun ws r2 => matchSubjPart t sc br (some (':' :: ws)) r2) [] r1
    else none

/-- Match the tail beginning with the optional separator group (participate
first, then skip). -/
def matchSepPart (t : Str) (sc br : Option Str) (rest : Str) :
    Option CCGroups :=
  (sepAttempt t sc br rest).orElse (fun _ => matchSubjPart t sc br none rest)

/-- The participate branch of the optional breaking group: an exclamation
mark followed by a greedy run of whitespace, then the separator tail. -/
def breakingAttempt (t : Str) (sc : Option Str) : Str → Option CCGroups
  | [] => none
  | c :: r1 =>
    if c = '!' then
      greedyFrom jsWhitespaceChar
        (fun ws r2 => matchSepPart t sc (some ('!' :: ws)) r2) [] r1
    else none

/-- Match the tail beginning with the optional breaking group (participate
first, then skip). -/
def matchBreakingPart (t : Str) (sc : Option Str) (rest : Str) :
    Option CCGroups :=
  (breakingAttempt t sc rest).orElse (fun _ => matchSepPart t sc none rest)

/-- The closing part of the scope group attempt: the closing parenthesis then
a greedy run of trailing whitespace, continuing with the breaking tail. -/
def scopeClose (t : Str) (content : Str) : Str → Option CCGroups
  | [] => none
  | d :: r3 =>
    if d = ')' then
      greedyFrom jsWhitespaceChar
        (fun ws r4 =>
          matchBreakingPart t (some ('(' :: (content ++ ')' :: ws))) r4)
        [] r3
    else none

/-- The participate branch of the optional scope group: an opening
parenthesis, a greedy run of non-closing-parenthesis characters, then the
closing parenthesis and trailing whitespace. -/
def scopeAttempt (t : Str) : Str → Option CCGroups
  | [] => none
  | c :: r1 =>
    if c = '(' then
      greedyFrom (fun c => !(c = ')')) (fun content r2 => scopeClose t content r2)
        [] r1
    else none

/-- Match the tail beginning with the optional scope group (participate
first, then skip). -/
def matchScopePart (t : Str) (rest : Str) : Option CCGroups :=
  (scopeAttempt t rest).orElse (fun _ => matchBreakingPart t none rest)

/-- The anchored structural pattern of `createRawConventionalCommit`
(src/conventionalCommit.ts, line 604): type, then optional scope, breaking
marker and separator groups, then the rest of the line; returns the captured
groups, or `none` when the pattern does not match (which can only happen when
the line contains a LineTerminator, e.g. a stray carriage return). -/
def execConventionalCommitRegex (l : Str) : Option CCGroups :=
  greedyFrom isTypeChar (fun t rest => matchScopePart t rest) [] l

/-- The `Commit` value wrapped by a conventional commit.  Only the fields read
by the embedded functions are modelled (hash, subject, body, footer, raw
message); author/committer metadata and the fixup/merge attribute flags are
never consulted by the segmenter, extractor or rules.  The footer is the
ordered key/value trailer mapping produced by the segmentation step. -/
structure Commit where
  hash : Str
  subject : Str
  body : Option Str
  footer : Option (List (Str × Str))
  raw : Str
deriving DecidableEq, Repr

/-- `IConventionalCommitElement`: a captured field value (or `undefined`) plus
its character offset within the subject line. -/
structure CCElement where
  index : Nat
  value : Option Str
deriving DecidableEq, Repr

/-- `IRawConventionalCommit`: the original commit plus the five extracted
subject-line fields and the body field. -/
structure IRawConventionalCommit where
  commit : Commit
  type : CCElement
  scope : CCElement
  breaking : CCElement
  seperator : CCElement
  description : CCElement
  body : CCElement
deriving DecidableEq, Repr

/-- The raw captured length of an element (`value?.length ?? 0`). -/
def elementLength (e : CCElement) : Nat :=
  (e.value.map List.length).getD 0

/-- `intializeIndices` (src/conventionalCommit.ts, lines 619–625; the typo is
the source's): each field's offset is the previous field's offset plus the
previous field's raw captured length. -/
def intializeIndices (commit : IRawConventionalCommit) : IRawConventionalCommit :=
  let scope := { commit.scope with index := commit.type.index + elementLength commit.type }
  let breaking := { commit.breaking with index := scope.index + elementLength scope }
  let seperator := { commit.seperator with index := breaking.index + elementLength breaking }
  let description := { commit.description with index := seperator.index + elementLength seperator }
  { commit with scope := scope, breaking := breaking, seperator := seperator,
                description := description }

/-- `createRawConventionalCommit` (src/conventionalCommit.ts, lines 603–628):
run the structural pattern against the first line of the subject, take each
named group (undefined when the group did not participate or the whole match
failed), seed all offsets with 1 and chain them with `intializeIndices`. -/
def createRawConventionalCommit (commit : Commit) : IRawConventionalCommit :=
  let m := execConventionalCommitRegex (firstLineOf commit.subject)
  intializeIndices
    { commit := commit
      type := ⟨1, m.map (fun g => g.type)⟩
      scope := ⟨1, m.bind (fun g => g.scope)⟩
      breaking := ⟨1, m.bind (fun g => g.breaking)⟩
      seperator := ⟨1, m.bind (fun g => g.seperatorGrp)⟩
      description := ⟨1, m.bind (fun g => g.subjectGrp)⟩
      body := ⟨1, commit.body⟩ }

/-- Does the footer mapping contain the given key (the JavaScript `in`
operator on the footer record)? -/
def footerHasKey (footer : Option (List (Str × Str))) (key : Str) : Bool :=
  match footer with
  | some entries => entries.any (fun kv => kv.1 == key)
  | none => false

/-- The `scope` getter of class `ConventionalCommit` (src/conventionalCommit.ts,
lines 529–535): when a scope was captured, trailing whitespace is trimmed and
every parenthesis character is removed (a `replace` with a global
parenthesis-class regex); otherwise `undefined`. -/
def scopeGetter (raw : IRawConventionalCommit) : Option Str :=
  raw.scope.value.map
    (fun v => (jsTrimEnd v).filter (fun c => !(c = '(' || c = ')')))

/-- The `breaking` getter of class `ConventionalCommit`
(src/conventionalCommit.ts, lines 540–545): the trailing-trimmed breaking
capture is exactly an exclamation mark, or the footer mapping contains the key
`BREAKING CHANGE` or `BREAKING-CHANGE` (exact, case-sensitive keys). -/
def breakingGetter (raw : IRawConventionalCommit) : Bool :=
  (raw.breaking.value.map jsTrimEnd == some ['!']) ||
  (raw.commit.footer.isSome &&
    (footerHasKey raw.commit.footer (("BREAKING CHANGE").data) ||
     footerHasKey raw.commit.footer (("BREAKING-CHANGE").data)))





/-! ## Diagnostics and the rule engine (src/requirements.ts) -/

/-- Severity of a diagnostic (diagnose-it `DiagnosticsLevelEnum`). -/
inductive DiagLevel where
  | error
  | warning
deriving DecidableEq, Repr

/-- Kind of a fix-it hint (`FixItHint.create` vs `FixItHint.createRemoval`). -/
inductive FixItKind where
  | replacement
  | removal
deriving DecidableEq, Repr

/-- A fix-it hint: a character index and length within the context line. -/
structure FixItHint where
  kind : FixItKind
  index : Nat
  length : Nat
deriving DecidableEq, Repr

/-- A structured diagnostic (diagnose-it `DiagnosticsMessage`): severity, the
file identifier (the commit hash), the rendered message text, position,
context lines and an optional fix-it hint. -/
structure DiagnosticsMessage where
  level : DiagLevel
  file : Str
  text : Str
  linenumber : Nat
  column : Nat
  contextStart : Nat
  contextLines : List Str
  hint : Option FixItHint
deriving DecidableEq, Repr

/-- Worker for `jsReplaceFirst`. -/
def jsReplaceFirstGo (target repl : Str) : Str → Str
  | [] => []
  | c :: cs =>
    if target.isPrefixOf (c :: cs) then repl ++ (c :: cs).drop target.length
    else c :: jsReplaceFirstGo target repl cs

/-- JavaScript `s.replace(target, repl)` with a plain-string pattern: replace
the first occurrence only (none of the replacement strings used by the source
contain dollar patterns). -/
def jsReplaceFirst (s target repl : Str) : Str :=
  if target.isEmpty then repl ++ s else jsReplaceFirstGo target repl s

/-- `chalk.cyan`: wrap in the ANSI cyan escape and the reset-to-default
escape. -/
def chalkCyan (s : Str) : Str :=
  ('\u001b' :: ("[36m").data) ++ s ++ ('\u001b' :: ("[39m").data)

/-- `highlightString` (src/requirements.ts): replace the first occurrence of
each listed substring with its cyan version. -/
def highlightString (s : Str) (subs : List Str) : Str :=
  subs.foldl (fun r sub => jsReplaceFirst r sub (chalkCyan sub)) s

/-- `isNoun` (src/requirements.ts, lines 513–515): the trimmed string contains
no space and no character outside the ASCII letters. -/
def isNoun (s : Str) : Bool :=
  !((jsTrim s).contains ' ') && !((jsTrim s).any (fun c => !asciiLetter c))

/-- JavaScript `String.prototype.substring`: clamp both arguments to the
string bounds and swap them when out of order. -/
def jsSubstring (l : Str) (a b : Int) : Str :=
  let n : Int := l.length
  let a := min (max a 0) n
  let b := min (max b 0) n
  let lo := min a b
  let hi := max a b
  (l.drop lo.toNat).take (hi - lo).toNat

/-- JavaScript truthiness of an optional string: `undefined` and the empty
string are falsy. -/
def jsFalsyStr (v : Option Str) : Bool :=
  match v with
  | none => true
  | some s => s.isEmpty

/-- ASCII `toUpperCase` (all keys compared by the embedded rules are ASCII;
the exotic non-ASCII case foldings of full JavaScript `toUpperCase` are not
modelled). -/
def jsToUpperAscii (l : Str) : Str := l.map Char.toUpper

/-- ASCII `toLowerCase` (see `jsToUpperAscii`; the only lowercased values are
guarded by the ASCII-letters noun test). -/
def jsToLowerAscii (l : Str) : Str := l.map Char.toLower

/-- `IConventionalCommitOptions`: optional scope and type vocabularies.  An
absent options object behaves as one with both members absent. -/
structure IConventionalCommitOptions where
  scopes : Option (List Str)
  types : Option (List Str)
deriving DecidableEq, Repr

/-- The options value used when the caller passes no options. -/
def noOptions : IConventionalCommitOptions := ⟨none, none⟩

/-- The element keys that rules pass to `createDiagnosticsMessage`. -/
inductive CCFieldKey where
  | type
  | scope
  | breaking
  | seperator
  | description
deriving DecidableEq, Repr

/-- Field selection `commit[type]`. -/
def selectElement (commit : IRawConventionalCommit) : CCFieldKey → CCElement
  | .type => commit.type
  | .scope => commit.scope
  | .breaking => commit.breaking
  | .seperator => commit.seperator
  | .description => commit.description

/-- `element.value?.trimEnd().length ?? 1`. -/
def trimEndLengthOrOne (v : Option Str) : Nat :=
  (v.map (fun s => (jsTrimEnd s).length)).getD 1

/-- `element.value?.length ?? 1`. -/
def lengthOrOne (v : Option Str) : Nat :=
  (v.map List.length).getD 1

/-- The `prevElement` scan of `createDiagnosticsMessage`: walk the object
entries in declaration order (the `commit` entry has no index and never
satisfies the strict comparison) keeping the element with the largest index
strictly below the target index. -/
def prevElementScan (commit : IRawConventionalCommit) (elemIndex : Nat) :
    Option CCElement :=
  [commit.type, commit.scope, commit.breaking, commit.seperator,
   commit.description, commit.body].foldl
    (fun prev v =>
      if (match prev with | some p => p.index | none => 0) < v.index ∧
          v.index < elemIndex then
        some v
      else prev)
    none

/-- `createDiagnosticsMessage` (src/requirements.ts, lines 527–562): position
the caret at the element (or, in whitespace mode, at the gap after the
previous element), render the highlighted description, attach the first
subject line as context and add a fix-it hint of the computed length (1 when
the computed length is zero). -/
def createDiagnosticsMessage (commit : IRawConventionalCommit)
    (description : Str) (highlight : List Str) (key : CCFieldKey)
    (whitespace : Bool) (level : DiagLevel) : DiagnosticsMessage :=
  let element := selectElement commit key
  let hintIndex := element.index
  let hintLength := trimEndLengthOrOne element.value
  let hintIndex :=
    if whitespace then
      match prevElementScan commit element.index with
      | some p => p.index + trimEndLengthOrOne p.value
      | none => 1
    else hintIndex
  let hintLength :=
    if whitespace then
      match prevElementScan commit element.index with
      | some p => lengthOrOne p.value - trimEndLengthOrOne p.value
      | none => 0
    else hintLength
  { level := level
    file := commit.commit.hash
    text := highlightString description highlight
    linenumber := 1
    column := hintIndex
    contextStart := 1
    contextLines := [firstLineOf commit.commit.subject]
    hint := some ⟨FixItKind.replacement, hintIndex,
                  if hintLength = 0 then 1 else hintLength⟩ }

/-- Rule CC-01 (src/requirements.ts, lines 568–647).  The threaded `desc` is
the rule object's `description` field, which CC-01 reads but never writes. -/
def validateCC01 (desc : Str) (commit : IRawConventionalCommit) :
    List DiagnosticsMessage :=
  let errors : List DiagnosticsMessage := []
  let errors :=
    if jsFalsyStr commit.type.value ||
        (jsTrim (commit.type.value.getD [])).isEmpty then
      errors
    else
      let v := commit.type.value.getD []
      let errors :=
        if !isNoun v then
          errors ++ [createDiagnosticsMessage commit desc
            [("which consists of a noun").data] CCFieldKey.type false
            DiagLevel.error]
        else errors
      let errors :=
        if jsTrim v ≠ v then
          if !jsFalsyStr commit.scope.value then
            errors ++ [createDiagnosticsMessage commit desc
              [("followed by the OPTIONAL scope").data] CCFieldKey.scope true
              DiagLevel.error]
          else if !jsFalsyStr commit.breaking.value then
            errors ++ [createDiagnosticsMessage commit desc
              [("followed by the").data, ("OPTIONAL !").data]
              CCFieldKey.breaking true DiagLevel.error]
          else
            errors ++ [createDiagnosticsMessage commit desc
              [("followed by the").data, ("REQUIRED terminal colon").data]
              CCFieldKey.seperator true DiagLevel.error]
        else errors
      let errors :=
        if !jsFalsyStr commit.scope.value ∧
            jsTrim (commit.scope.value.getD []) ≠ commit.scope.value.getD [] then
          if !jsFalsyStr commit.breaking.value then
            errors ++ [createDiagnosticsMessage commit desc
              [("followed by the").data, ("OPTIONAL !").data]
              CCFieldKey.breaking true DiagLevel.error]
          else
            errors ++ [createDiagnosticsMessage commit desc
              [("followed by the").data, ("REQUIRED terminal colon").data]
              CCFieldKey.seperator true DiagLevel.error]
        else errors
      let errors :=
        if !jsFalsyStr commit.breaking.value ∧
            jsTrim (commit.breaking.value.getD []) ≠
              commit.breaking.value.getD [] then
          errors ++ [createDiagnosticsMessage commit desc
            [("followed by the").data, ("REQUIRED terminal colon").data]
            CCFieldKey.seperator true DiagLevel.error]
        else errors
      errors
  if jsFalsyStr commit.seperator.value then
    errors ++ [createDiagnosticsMessage commit desc
      [("followed by the").data, ("REQUIRED terminal colon").data]
      CCFieldKey.seperator false DiagLevel.error]
  else errors

/-- Rule CC-04 (src/requirements.ts, lines 653–671). -/
def validateCC04 (desc : Str) (commit : IRawConventionalCommit) :
    List DiagnosticsMessage :=
  if !jsFalsyStr commit.scope.value ∧
      (commit.scope.value.getD [] = ("()").data ∨
        !isNoun (jsSubstring (jsTrimEnd (commit.scope.value.getD [])) 1
          ((jsTrimEnd (commit.scope.value.getD [])).length - 1))) then
    [createDiagnosticsMessage commit desc
      [("A scope MUST consist of a noun").data] CCFieldKey.scope false
      DiagLevel.error]
  else []

/-- Rule CC-05 (src/requirements.ts, lines 678–707): nothing when the
separator is absent; otherwise an error when the description is undefined or
the separator captured a number of trailing whitespace characters other than
exactly one. -/
def validateCC05 (desc : Str) (commit : IRawConventionalCommit) :
    List DiagnosticsMessage :=
  if jsFalsyStr commit.seperator.value then []
  else if commit.description.value = none ∨
      (commit.seperator.value.getD []).length -
        (jsTrim (commit.seperator.value.getD [])).length ≠ 1 then
    [createDiagnosticsMessage commit desc
      [("A description MUST immediately follow the colon and space").data]
      CCFieldKey.description true DiagLevel.error]
  else []

/-- Rule CC-06 (src/requirements.ts, lines 714–741): a subject spanning more
than one physical line is an error with a removal fix-it on the second
line. -/
def validateCC06 (desc : Str) (commit : IRawConventionalCommit) :
    List DiagnosticsMessage :=
  if commit.commit.subject.isEmpty then []
  else
    let lines := splitROptN commit.commit.subject
    if 1 < lines.length then
      [{ level := DiagLevel.error
         file := commit.commit.hash
         text := highlightString desc
           [("The body MUST begin one blank line after the description").data]
         linenumber := 2
         column := 1
         contextStart := 1
         contextLines := lines
         hint := some ⟨FixItKind.removal, 1, (lines.getD 1 []).length⟩ }]
    else []

/-- An extracted footer element: trailer key, value and the 1-based line
number of the key line inside the scanned paragraph. -/
structure FooterElement where
  key : Str
  value : Str
  lineNumber : Nat
deriving DecidableEq, Repr

/-- Modelled from the spec: the classification of a single line by the footer
trailer grammar used by `getFooterElementsFromParagraph`, whose implementation
(current src/commit.ts) is not among the provided sources.  Spec §4.1: a
trailer line is `KEY:` or `KEY #` where KEY is a non-empty run of word/hyphen
characters, or the literal `BREAKING CHANGE:` matched case-insensitively; the
key is the matched prefix without the trailing colon (for the issue-reference
form, the value is the hash mark plus the remainder). -/
def trailerStartOfLine (line : Str) : Option (Str × Str) :=
  if (("breaking change:").data).isPrefixOf (jsToLowerAscii line) then
    some (line.take 15, jsTrim (line.drop 16))
  else
    let key := line.takeWhile wordOrHyphenChar
    match line.drop key.length with
    | ':' :: rest => if key.isEmpty then none else some (key, jsTrim rest)
    | ' ' :: '#' :: rest => if key.isEmpty then none else some (key, '#' :: rest)
    | _ => none

/-- Modelled from the spec: worker for `getFooterElementsFromParagraph`; scans
lines keeping the current element, appending continuation lines (blank or
starting with whitespace) trimmed and newline-joined, and closing the current
element at any other line. -/
def footerElementsGo (n : Nat) (cur : Option FooterElement) :
    List Str → List FooterElement
  | [] => cur.toList
  | line :: rest =>
    match trailerStartOfLine line with
    | some kv =>
      cur.toList ++ footerElementsGo (n + 1) (some ⟨kv.1, kv.2, n⟩) rest
    | none =>
      match line with
      | [] => footerElementsGo (n + 1)
          (cur.map (fun e => { e with value := e.value ++ '\n' :: jsTrim line }))
          rest
      | c :: _ =>
        if jsWhitespaceChar c then
          footerElementsGo (n + 1)
            (cur.map (fun e => { e with value := e.value ++ '\n' :: jsTrim line }))
            rest
        else cur.toList ++ footerElementsGo (n + 1) none rest

/-- Modelled from the spec: `getFooterElementsFromParagraph` (current
src/commit.ts, only its callers are among the provided sources).  Spec §4.1
step 6: scan the paragraph's lines; a line matching the trailer grammar starts
a new entry recorded with its 1-based line number; indented or blank lines are
appended to the current entry's value; returns undefined when no trailer
element is found. -/
def getFooterElementsFromParagraph (paragraph : Str) :
    Option (List FooterElement) :=
  let elems := footerElementsGo 1 none (splitROptN paragraph)
  if elems.isEmpty then none else some elems

/-- Rule CC-15 (src/requirements.ts, lines 747–775): any trailer-shaped line
of the raw message whose key is `BREAKING CHANGE`/`BREAKING-CHANGE` up to case
but not written in uppercase is an error positioned at that line. -/
def validateCC15 (desc : Str) (commit : IRawConventionalCommit) :
    List DiagnosticsMessage :=
  match getFooterElementsFromParagraph commit.commit.raw with
  | none => []
  | some elements =>
    elements.foldl
      (fun errors element =>
        if (jsToUpperAscii element.key = ("BREAKING CHANGE").data ∨
            jsToUpperAscii element.key = ("BREAKING-CHANGE").data) then
          if element.key ≠ jsToUpperAscii element.key then
            let msg : DiagnosticsMessage :=
              { level := DiagLevel.error
                file := commit.commit.hash
                text := highlightString desc
                  [("BREAKING CHANGE MUST be uppercase").data]
                linenumber := element.lineNumber
                column := 1
                contextStart := element.lineNumber
                contextLines :=
                  [(splitROptN commit.commit.raw).getD (element.lineNumber - 1) []]
                hint := some ⟨FixItKind.replacement, 1, element.key.length⟩ }
            errors ++ [msg]
          else errors
        else errors)
      []

/-- Deduplicate preserving first occurrences (`Array.from(new Set(...))`). -/
def jsSetDedup (l : List Str) : List Str :=
  l.foldl (fun acc s => if acc.contains s then acc else acc ++ [s]) []

/-- `Array.prototype.join` with a comma and a space. -/
def joinCommaSpace (ls : List Str) : Str :=
  List.intercalate ((", ").data) ls

/-- Remove every parenthesis character (`replace` with the global
parenthesis-run regex). -/
def stripAllParens (s : Str) : Str :=
  s.filter (fun c => !(c = '(' || c = ')'))

/-- Rule EC-01 (src/requirements.ts, lines 780–808).  The rule object's
`description` field is threaded as state: it is overwritten (with the
configured scopes interpolated) just before the diagnostic is built. -/
def validateEC01 (desc : Str) (commit : IRawConventionalCommit)
    (options : IConventionalCommitOptions) :
    List DiagnosticsMessage × Str :=
  let uniqueScopeList := jsSetDedup (options.scopes.getD [])
  if uniqueScopeList.isEmpty then ([], desc)
  else if commit.scope.value = none ∨
      uniqueScopeList.contains (stripAllParens (commit.scope.value.getD [])) then
    ([], desc)
  else
    let newDesc :=
      ("A scope MAY be provided after a type. A scope MUST consist of one of the configured values (").data ++
        joinCommaSpace uniqueScopeList ++ (") surrounded by parenthesis").data
    ([createDiagnosticsMessage commit newDesc
        [("A scope MUST consist of").data,
         '(' :: (joinCommaSpace uniqueScopeList ++ [')'])]
        CCFieldKey.scope false DiagLevel.error],
     newDesc)

/-- Rule EC-02 (src/requirements.ts, lines 813–861).  The effective type set
is feat and fix plus the deduplicated configured types; the lowercased,
end-trimmed type is compared against it.  A type that trims to nothing yields
an error; otherwise the severity is error exactly when custom types beyond
feat/fix were supplied, and warning otherwise.  The `description` field is
threaded as state and overwritten at the start of every call. -/
def validateEC02 (_desc : Str) (commit : IRawConventionalCommit)
    (options : IConventionalCommitOptions) :
    List DiagnosticsMessage × Str :=
  let uniqueAddedTypes :=
    (jsSetDedup (options.types.getD [])).filter
      (fun t => !(t = ("feat").data || t = ("fix").data))
  let expectedTypes := ("feat").data :: ("fix").data :: uniqueAddedTypes
  let newDesc :=
    ("Commits ").data ++
      (if 0 < uniqueAddedTypes.length then ("MUST").data else ("MAY").data) ++
      (" be prefixed with a type, which consists of one of the configured values (").data ++
      joinCommaSpace expectedTypes ++ (").").data
  if commit.type.value = none ∨ !isNoun (commit.type.value.getD []) ∨
      expectedTypes.contains
        (jsTrimEnd (jsToLowerAscii (commit.type.value.getD []))) then
    ([], newDesc)
  else if (jsTrim (commit.type.value.getD [])).isEmpty then
    ([createDiagnosticsMessage commit newDesc [("prefixed with a type").data]
        CCFieldKey.type false DiagLevel.error],
     newDesc)
  else if 0 < uniqueAddedTypes.length then
    ([createDiagnosticsMessage commit newDesc
        [("prefixed with a type, which consists of").data,
         '(' :: (joinCommaSpace expectedTypes ++ [')'])]
        CCFieldKey.type false DiagLevel.error],
     newDesc)
  else
    ([createDiagnosticsMessage commit newDesc
        [("prefixed with a type, which consists of").data,
         '(' :: (joinCommaSpace expectedTypes ++ [')'])]
        CCFieldKey.type false DiagLevel.warning],
     newDesc)

/-- Rule WA-01 (src/requirements.ts, lines 866–898): warn for every
breaking-change trailer found in the body paragraphs.  The rule's description
field is never read or written. -/
def validateWA01 (commit : IRawConventionalCommit) : List DiagnosticsMessage :=
  match commit.commit.body with
  | none => []
  | some body =>
    match getFooterElementsFromParagraph body with
    | none => []
    | some elements =>
      elements.foldl
        (fun errors element =>
          if element.key = ("BREAKING CHANGE").data ∨
              element.key = ("BREAKING-CHANGE").data then
            let msg : DiagnosticsMessage :=
              { level := DiagLevel.warning
                file := commit.commit.hash
                text := highlightString
                  (("A `").data ++ element.key ++
                    ("` git-trailer has been found in the body of the commit message and will be ignored as it MUST be included in the footer.").data)
                  [element.key,
                   ("will be ignored as it MUST be included in the footer").data]
                linenumber :=
                  (splitROptN commit.commit.subject).length + element.lineNumber
                column := 1
                contextStart := (splitROptN commit.commit.subject).length + 1
                contextLines := splitROptN body
                hint := some ⟨FixItKind.replacement, 1, element.key.length⟩ }
            errors ++ [msg]
          else errors)
        []

/-- The mutable `description` fields of the eight module-level rule objects of
src/requirements.ts, threaded as explicit state. -/
structure RuleState where
  cc01 : Str
  cc04 : Str
  cc05 : Str
  cc06 : Str
  cc15 : Str
  ec01 : Str
  ec02 : Str
  wa01 : Str
deriving DecidableEq, Repr

/-- The class-initializer values of the eight `description` fields. -/
def initialRuleState : RuleState where
  cc01 := ("Commits MUST be prefixed with a type, which consists of a noun, feat, fix, etc., followed by the OPTIONAL scope, OPTIONAL !, and REQUIRED terminal colon and space.").data
  cc04 := ("A scope MAY be provided after a type. A scope MUST consist of a noun describing a section of the codebase surrounded by parenthesis, e.g., fix(parser):").data
  cc05 := ("A description MUST immediately follow the colon and space after the type/scope prefix. The description is a short summary of the code changes, e.g., fix: array parsing issue when multiple spaces were contained in string.").data
  cc06 := ("A longer commit body MAY be provided after the short description, providing additional contextual information about the code changes. The body MUST begin one blank line after the description.").data
  cc15 := ("The units of information that make up Conventional Commits MUST NOT be treated as case sensitive by implementors, with the exception of BREAKING CHANGE which MUST be uppercase.").data
  ec01 := ("A scope MAY be provided after a type. A scope MUST consist of one of the configured values (...) surrounded by parenthesis").data
  ec02 := ("Commits MUST be prefixed with a type, which consists of one of the configured values (feat, fix, ...)").data
  wa01 := ("A `BREAKING CHANGE` git-trailer has been found in the body of the commit message and will be ignored as it MUST be included in the footer.").data

/-- `commitRules` (src/requirements.ts, lines 900–910) combined with the
`forEach` of `ConventionalCommit.validate`: run the eight rules in their fixed
order, concatenating diagnostics, threading each rule's `description`
state (only EC-01 and EC-02 ever write theirs). -/
def runCommitRules (st : RuleState) (raw : IRawConventionalCommit)
    (options : IConventionalCommitOptions) :
    List DiagnosticsMessage × RuleState :=
  let d01 := validateCC01 st.cc01 raw
  let d04 := validateCC04 st.cc04 raw
  let d05 := validateCC05 st.cc05 raw
  let d06 := validateCC06 st.cc06 raw
  let d15 := validateCC15 st.cc15 raw
  let rE1 := validateEC01 st.ec01 raw options
  let rE2 := validateEC02 st.ec02 raw options
  let dW1 := validateWA01 raw
  (d01 ++ d04 ++ d05 ++ d06 ++ d15 ++ rE1.1 ++ rE2.1 ++ dW1,
   { st with ec01 := rE1.2, ec02 := rE2.2 })

/-- A constructed `ConventionalCommit`: the raw extracted data plus the
partitioned diagnostics produced at construction time. -/
structure ConventionalCommit where
  raw : IRawConventionalCommit
  errors : List DiagnosticsMessage
  warnings : List DiagnosticsMessage
deriving DecidableEq, Repr

/-- `ConventionalCommit.fromCommit` plus the private `validate`
(src/conventionalCommit.ts, lines 464–470 and 594–600), with the module-level
rule state threaded explicitly: run all rules, then partition by severity. -/
def fromCommitWithState (st : RuleState) (commit : Commit)
    (options : IConventionalCommitOptions) : ConventionalCommit × RuleState :=
  let raw := createRawConventionalCommit commit
  let results := runCommitRules st raw options
  ({ raw := raw
     errors := results.1.filter (fun d => d.level = DiagLevel.error)
     warnings := results.1.filter (fun d => d.level = DiagLevel.warning) },
   results.2)

/-- The `breaking` getter on a constructed `ConventionalCommit`. -/
def ConventionalCommit.breaking (cc : ConventionalCommit) : Bool :=
  breakingGetter cc.raw

/-- The `scope` getter on a constructed `ConventionalCommit`. -/
def ConventionalCommit.scope (cc : ConventionalCommit) : Option Str :=
  scopeGetter cc.raw

/-- The `isValid` getter: no error-severity diagnostics. -/
def ConventionalCommit.isValid (cc : ConventionalCommit) : Bool :=
  cc.errors.isEmpty

/-- Shape of a captured scope group: an opening parenthesis, non-closing
characters, a closing parenthesis, then whitespace. -/
def ScopeShape (v : Option Str) : Prop :=
  v = none ∨ ∃ inner ws, (∀ c ∈ inner, c ≠ ')') ∧
    (∀ c ∈ ws, jsWhitespaceChar c = true) ∧
    v = some ('(' :: (inner ++ ')' :: ws))

/-- Shape of a captured breaking group: an exclamation mark then whitespace. -/
def BreakingShape (v : Option Str) : Prop :=
  v = none ∨ ∃ ws, (∀ c ∈ ws, jsWhitespaceChar c = true) ∧ v = some ('!' :: ws)

/-- Shape of a captured separator group: a colon then whitespace. -/
def SepShape (v : Option Str) : Prop :=
  v = none ∨ ∃ ws, (∀ c ∈ ws, jsWhitespaceChar c = true) ∧ v = some (':' :: ws)

/-- Does the string start with a LF? -/
def startsNL : Str → Bool
  | '\n' :: _ => true
  | _ => false

/-- Does the string contain two adjacent LF characters (an empty line)? -/
def hasDoubleNL : Str → Bool
  | [] => false
  | [_] => false
  | a :: b :: rest => (a = '\n' && b = '\n') || hasDoubleNL (b :: rest)

/-! ## Analysis of the backtracking matcher -/

/-- Case analysis for `Option.orElse` producing a value. -/
theorem optOrElse_eq_some {α} {x : Option α} {f : Unit → Option α} {r : α}
    (h : x.orElse f = some r) : x = some r ∨ (x = none ∧ f () = some r) := by
  cases x with
  | none => exact Or.inr ⟨rfl, h⟩
  | some a => exact Or.inl h

/-- Soundness of the greedy star: a successful run decomposes the input into a
consumed prefix of class characters and a remainder accepted by the
continuation. -/
theorem greedyFrom_eq_some {α} {p : Char → Bool} {k : Str → Str → Option α} :
    ∀ {l acc : Str} {r : α}, greedyFrom p k acc l = some r →
      ∃ a b, l = a ++ b ∧ (∀ c ∈ a, p c = true) ∧ k (acc ++ a) b = some r := by
  intro l
  induction l with
  | nil =>
    intro acc r h
    exact ⟨[], [], rfl, by simp, by simpa [greedyFrom] using h⟩
  | cons c cs ih =>
    intro acc r h
    by_cases hp : p c = true
    · rw [greedyFrom, if_pos hp] at h
      rcases optOrElse_eq_some h with h1 | ⟨_, h2⟩
      · rcases ih h1 with ⟨a, b, hab, hall, hk⟩
        exact ⟨c :: a, b, by simp [hab], by
          intro x hx
          rcases List.mem_cons.mp hx with rfl | hx
          · exact hp
          · exact hall x hx, by simpa using hk⟩
      · exact ⟨[], c :: cs, rfl, by simp, by simpa using h2⟩
    · rw [greedyFrom, if_neg hp] at h
      exact ⟨[], c :: cs, rfl, by simp, by simpa using h⟩

/-- A successful subject-tail match passes the earlier groups through and
captures exactly the remainder. -/
theorem matchSubjPart_eq_some {t : Str} {sc br sep : Option Str} {rest : Str}
    {g : CCGroups} (h : matchSubjPart t sc br sep rest = some g) :
    g.type = t ∧ g.scope = sc ∧ g.breaking = br ∧ g.seperatorGrp = sep ∧
      g.subjectGrp.getD [] = rest := by
  unfold matchSubjPart at h
  rcases optOrElse_eq_some h with h1 | ⟨_, h2⟩
  · rcases greedyFrom_eq_some h1 with ⟨a, b, hab, _, hk⟩
    simp only [List.nil_append] at hk
    by_cases hb : b.isEmpty
    · rw [if_pos hb] at hk
      injection hk with hk
      subst hk
      have : b = [] := by simpa [List.isEmpty_iff] using hb
      subst this
      simp [hab]
    · rw [if_neg hb] at hk
      exact absurd hk (by simp)
  · by_cases hr : rest.isEmpty
    · rw [if_pos hr] at h2
      injection h2 with h2
      subst h2
      have : rest = [] := by simpa [List.isEmpty_iff] using hr
      simp [this]
    · rw [if_neg hr] at h2
      exact absurd h2 (by simp)

/-- A successful separator-tail match: pass-through of earlier groups, shape
of the separator capture, and concatenation of the captures back to the
input. -/
theorem matchSepPart_eq_some {t : Str} {sc br : Option Str} {rest : Str}
    {g : CCGroups} (h : matchSepPart t sc br rest = some g) :
    g.type = t ∧ g.scope = sc ∧ g.breaking = br ∧ SepShape g.seperatorGrp ∧
      g.seperatorGrp.getD [] ++ g.subjectGrp.getD [] = rest := by
  unfold matchSepPart at h
  rcases optOrElse_eq_some h with h1 | ⟨_, h2⟩
  · cases rest with
    | nil => exact absurd h1 (by simp [sepAttempt])
    | cons c r1 =>
      simp only [sepAttempt] at h1
      by_cases hc : c = ':'
      · subst hc
        rw [if_pos rfl] at h1
        rcases greedyFrom_eq_some h1 with ⟨a, b, hab, hall, hk⟩
        simp only [List.nil_append] at hk
        obtain ⟨ht, hsc, hbr, hsep, hsubj⟩ := matchSubjPart_eq_some hk
        refine ⟨ht, hsc, hbr, Or.inr ⟨a, hall, hsep⟩, ?_⟩
        rw [hsep, hsubj]
        simp [hab]
      · rw [if_neg hc] at h1
        exact absurd h1 (by simp)
  · obtain ⟨ht, hsc, hbr, hsep, hsubj⟩ := matchSubjPart_eq_some h2
    exact ⟨ht, hsc, hbr, Or.inl hsep, by simp [hsep, hsubj]⟩

/-- A successful breaking-tail match: pass-through, shapes, concatenation. -/
theorem matchBreakingPart_eq_some {t : Str} {sc : Option Str} {rest : Str}
    {g : CCGroups} (h : matchBreakingPart t sc rest = some g) :
    g.type = t ∧ g.scope = sc ∧ BreakingShape g.breaking ∧
      SepShape g.seperatorGrp ∧
      g.breaking.getD [] ++ g.seperatorGrp.getD [] ++ g.subjectGrp.getD [] =
        rest := by
  unfold matchBreakingPart at h
  rcases optOrElse_eq_some h with h1 | ⟨_, h2⟩
  · cases rest with
    | nil => exact absurd h1 (by simp [breakingAttempt])
    | cons c r1 =>
      simp only [breakingAttempt] at h1
      by_cases hc : c = '!'
      · subst hc
        rw [if_pos rfl] at h1
        rcases greedyFrom_eq_some h1 with ⟨a, b, hab, hall, hk⟩
        simp only [List.nil_append] at hk
        obtain ⟨ht, hsc, hbr, hsep, hconc⟩ := matchSepPart_eq_some hk
        refine ⟨ht, hsc, Or.inr ⟨a, hall, hbr⟩, hsep, ?_⟩
        rw [hbr]
        simp only [Option.getD_some]
        rw [hab, ← hconc]
        simp
      · rw [if_neg hc] at h1
        exact absurd h1 (by simp)
  · obtain ⟨ht, hsc, hbr, hsep, hconc⟩ := matchSepPart_eq_some h2
    exact ⟨ht, hsc, Or.inl hbr, hsep, by simp [hbr, hconc]⟩

/-- A successful scope-tail match: pass-through, shapes, concatenation. -/
theorem matchScopePart_eq_some {t : Str} {rest : Str} {g : CCGroups}
    (h : matchScopePart t rest = some g) :
    g.type = t ∧ ScopeShape g.scope ∧ BreakingShape g.breaking ∧
      SepShape g.seperatorGrp ∧
      g.scope.getD [] ++ g.breaking.getD [] ++ g.seperatorGrp.getD [] ++
        g.subjectGrp.getD [] = rest := by
  unfold matchScopePart at h
  rcases optOrElse_eq_some h with h1 | ⟨_, h2⟩
  · cases rest with
    | nil => exact absurd h1 (by simp [scopeAttempt])
    | cons c r1 =>
      simp only [scopeAttempt] at h1
      by_cases hc : c = '('
      · subst hc
        rw [if_pos rfl] at h1
        rcases greedyFrom_eq_some h1 with ⟨content, r2, hab, hcontent, hk⟩
        simp only [List.nil_append] at hk
        cases r2 with
        | nil => exact absurd hk (by simp [scopeClose])
        | cons d r3 =>
          simp only [scopeClose] at hk
          by_cases hd : d = ')'
          · subst hd
            rw [if_pos rfl] at hk
            rcases greedyFrom_eq_some hk with ⟨ws, r4, hab4, hws, hk4⟩
            simp only [List.nil_append] at hk4
            obtain ⟨ht, hsc, hbr, hsep, hconc⟩ := matchBreakingPart_eq_some hk4
            refine ⟨ht, Or.inr ⟨content, ws, ?_, hws, hsc⟩, hbr, hsep, ?_⟩
            · intro x hx
              have := hcontent x hx
              simp at this
              exact this
            · rw [hsc]
              simp only [Option.getD_some]
              rw [hab, hab4, ← hconc]
              simp
          · rw [if_neg hd] at hk
            exact absurd hk (by simp)
      · rw [if_neg hc] at h1
        exact absurd h1 (by simp)
  · obtain ⟨ht, hsc, hbr, hsep, hconc⟩ := matchBreakingPart_eq_some h2
    exact ⟨ht, Or.inl hsc, hbr, hsep, by simp [hsc, hconc]⟩

/-- A successful run of the whole structural pattern: the type capture
consists of type-class characters, the optional captures have their syntactic
shapes, and the five captures concatenate back to the entire line. -/
theorem execCC_eq_some {l : Str} {g : CCGroups}
    (h : execConventionalCommitRegex l = some g) :
    (∀ c ∈ g.type, isTypeChar c = true) ∧ ScopeShape g.scope ∧
      BreakingShape g.breaking ∧ SepShape g.seperatorGrp ∧
      g.type ++ g.scope.getD [] ++ g.breaking.getD [] ++
        g.seperatorGrp.getD [] ++ g.subjectGrp.getD [] = l := by
  unfold execConventionalCommitRegex at h
  rcases greedyFrom_eq_some h with ⟨a, b, hab, hall, hk⟩
  simp only [List.nil_append] at hk
  obtain ⟨ht, hsc, hbr, hsep, hconc⟩ := matchScopePart_eq_some hk
  subst ht
  exact ⟨hall, hsc, hbr, hsep, by rw [hab, ← hconc]; simp⟩

/-- The values stored by `createRawConventionalCommit` are exactly the groups
of the structural match (undefined when the match failed or the group did not
participate), and the wrapped commit and body pass through unchanged. -/
theorem createRaw_values (c : Commit) :
    (createRawConventionalCommit c).commit = c ∧
    (createRawConventionalCommit c).type.value =
      (execConventionalCommitRegex (firstLineOf c.subject)).map
        (fun g => g.type) ∧
    (createRawConventionalCommit c).scope.value =
      (execConventionalCommitRegex (firstLineOf c.subject)).bind
        (fun g => g.scope) ∧
    (createRawConventionalCommit c).breaking.value =
      (execConventionalCommitRegex (firstLineOf c.subject)).bind
        (fun g => g.breaking) ∧
    (createRawConventionalCommit c).seperator.value =
      (execConventionalCommitRegex (firstLineOf c.subject)).bind
        (fun g => g.seperatorGrp) ∧
    (createRawConventionalCommit c).description.value =
      (execConventionalCommitRegex (firstLineOf c.subject)).bind
        (fun g => g.subjectGrp) ∧
    (createRawConventionalCommit c).body.value = c.body := by
  unfold createRawConventionalCommit intializeIndices
  simp

/-- The syntactic shapes of the three optional punctuation captures, as stored
on the raw conventional commit. -/
theorem createRaw_shapes (c : Commit) :
    ScopeShape (createRawConventionalCommit c).scope.value ∧
    BreakingShape (createRawConventionalCommit c).breaking.value ∧
    SepShape (createRawConventionalCommit c).seperator.value := by
  obtain ⟨-, -, hsc, hbr, hsep, -, -⟩ := createRaw_values c
  cases hm : execConventionalCommitRegex (firstLineOf c.subject) with
  | none =>
    rw [hm] at hsc hbr hsep
    exact ⟨Or.inl (by simpa using hsc), Or.inl (by simpa using hbr),
      Or.inl (by simpa using hsep)⟩
  | some g =>
    obtain ⟨-, hg1, hg2, hg3, -⟩ := execCC_eq_some hm
    rw [hm] at hsc hbr hsep
    simp only [Option.some_bind] at hsc hbr hsep
    rw [hsc, hbr, hsep]
    exact ⟨hg1, hg2, hg3⟩

/-! ## String lemmas -/

/-- Dropping while a predicate holds skips a fully-satisfying prefix. -/
theorem dropWhileAppendAll {p : Char → Bool} {a : Str}
    (h : ∀ c ∈ a, p c = true) (b : Str) :
    (a ++ b).dropWhile p = b.dropWhile p := by
  induction a with
  | nil => rfl
  | cons c cs ih =>
    simp only [List.cons_append, List.dropWhile_cons,
      h c (List.mem_cons_self c cs)]
    exact ih (fun x hx => h x (List.mem_cons_of_mem c hx))

/-- Trailing whitespace does not change `trimEnd`. -/
theorem jsTrimEnd_append_ws {l ws : Str}
    (h : ∀ c ∈ ws, jsWhitespaceChar c = true) :
    jsTrimEnd (l ++ ws) = jsTrimEnd l := by
  unfold jsTrimEnd
  rw [List.reverse_append,
    dropWhileAppendAll (fun c hc => h c (List.mem_reverse.mp hc))]

/-- Trailing whitespace does not change `trim` either. -/
theorem jsTrim_append_ws {l ws : Str}
    (h : ∀ c ∈ ws, jsWhitespaceChar c = true) :
    jsTrim (l ++ ws) = jsTrim l := by
  unfold jsTrim
  rw [List.dropWhile_append]
  by_cases he : (l.dropWhile jsWhitespaceChar).isEmpty
  · rw [if_pos he]
    have hws : ws.dropWhile jsWhitespaceChar = [] :=
      List.dropWhile_eq_nil_iff.mpr (fun x hx => h x hx)
    rw [hws, List.isEmpty_iff.mp he]
  · rw [if_neg he, jsTrimEnd_append_ws h]

/-- The trimmed-end breaking capture is always exactly the exclamation
mark. -/
theorem jsTrimEnd_bang {ws : Str} (h : ∀ c ∈ ws, jsWhitespaceChar c = true) :
    jsTrimEnd ('!' :: ws) = ['!'] := by
  have : ('!' :: ws) = ['!'] ++ ws := rfl
  rw [this, jsTrimEnd_append_ws h]
  decide

/-- The whitespace predicate recognises exactly the listed characters. -/
theorem jsWhitespaceChar_iff_mem {c : Char} :
    jsWhitespaceChar c = true ↔ c ∈ wsCharList := by
  simp [jsWhitespaceChar, List.elem_iff]

/-- A whitespace character is never a word or hyphen character. -/
theorem ws_not_wordOrHyphen {c : Char} (h : jsWhitespaceChar c = true) :
    wordOrHyphenChar c = false := by
  have hm := jsWhitespaceChar_iff_mem.mp h
  fin_cases hm <;> decide

/-- A word or hyphen character is never whitespace. -/
theorem wordOrHyphen_not_ws {c : Char} (h : wordOrHyphenChar c = true) :
    jsWhitespaceChar c = false := by
  cases hw : jsWhitespaceChar c with
  | false => rfl
  | true => rw [ws_not_wordOrHyphen hw] at h; exact absurd h (by simp)

/-- A whole-string trim is empty only when every character is whitespace. -/
theorem all_ws_of_jsTrim_eq_nil {l : Str} (h : jsTrim l = []) :
    ∀ c ∈ l, jsWhitespaceChar c = true := by
  intro c hc
  unfold jsTrim jsTrimEnd at h
  have h2 : (l.dropWhile jsWhitespaceChar).reverse.dropWhile jsWhitespaceChar
      = [] := by
    have := congrArg List.reverse h
    simpa using this
  have h3 : ∀ x ∈ (l.dropWhile jsWhitespaceChar).reverse,
      jsWhitespaceChar x = true := List.dropWhile_eq_nil_iff.mp h2
  have h4 : ∀ x ∈ l.dropWhile jsWhitespaceChar, jsWhitespaceChar x = true :=
    fun x hx => h3 x (List.mem_reverse.mpr hx)
  rw [← List.takeWhile_append_dropWhile jsWhitespaceChar l] at hc
  rcases List.mem_append.mp hc with hc | hc
  · exact List.mem_takeWhile_imp hc
  · exact h4 c hc

/-- A string containing a non-whitespace character does not trim to
nothing. -/
theorem jsTrim_ne_nil {l : Str} {c : Char} (hc : c ∈ l)
    (h : jsWhitespaceChar c = false) : jsTrim l ≠ [] := by
  intro hnil
  rw [all_ws_of_jsTrim_eq_nil hnil c hc] at h
  exact absurd h (by simp)

/-- A word character is never whitespace. -/
theorem wordChar_not_ws {c : Char} (h : wordChar c = true) :
    jsWhitespaceChar c = false :=
  wordOrHyphen_not_ws (by simp [wordOrHyphenChar, h])


/-- A non-empty `takeWhile` forces the head of the list to satisfy the
predicate. -/
theorem head_sat_of_takeWhile_ne_nil {p : Char → Bool} {l : Str}
    (h : ¬(l.takeWhile p).isEmpty = true) :
    ∃ w rest, l = w :: rest ∧ p w = true := by
  cases l with
  | nil => simp [List.takeWhile] at h
  | cons w rest =>
    cases hw : p w with
    | false => rw [List.takeWhile_cons, hw] at h; simp at h
    | true => exact ⟨w, rest, rfl, hw⟩

/-- A successful `isPrefixOf` exposes the string as the pattern followed by a
tail. -/
theorem exists_append_of_isPrefixOf :
    ∀ {a l : Str}, a.isPrefixOf l = true → ∃ t, l = a ++ t := by
  intro a
  induction a with
  | nil => intro l _; exact ⟨l, rfl⟩
  | cons c cs ih =>
    intro l h
    cases l with
    | nil => simp [List.isPrefixOf] at h
    | cons b bs =>
      simp only [List.isPrefixOf, Bool.and_eq_true, beq_iff_eq] at h
      obtain ⟨t, ht⟩ := ih h.2
      exact ⟨t, by rw [h.1, ht]; simp⟩

/-- Every line accepted by the trailer grammar contains a non-whitespace
character. -/
theorem matchesTrailerLine_has_nonws {line : Str}
    (h : matchesTrailerLine line = true) :
    ∃ c ∈ line, jsWhitespaceChar c = false := by
  unfold matchesTrailerLine at h
  simp only [Bool.or_eq_true] at h
  rcases h with (h | h) | h
  · obtain ⟨t, ht⟩ := exists_append_of_isPrefixOf h
    refine ⟨'B', ?_, by decide⟩
    rw [ht]
    exact List.mem_append_left t (by decide)
  · cases hd : line.dropWhile wordOrHyphenChar with
    | nil => rw [hd] at h; exact absurd h (by simp)
    | cons d rest =>
      rw [hd] at h
      simp only [Bool.and_eq_true] at h
      obtain ⟨w, r, hl, hw⟩ := head_sat_of_takeWhile_ne_nil (by simpa using h.2)
      exact ⟨w, by rw [hl]; exact List.mem_cons_self w r,
        wordOrHyphen_not_ws hw⟩
  · cases hd : line.dropWhile spaceOrTab with
    | nil => rw [hd] at h; exact absurd h (by simp)
    | cons d rest =>
      rw [hd] at h
      simp only [Bool.and_eq_true] at h
      have hdm : d ∈ line := by
        have hsub : List.Sublist (line.dropWhile spaceOrTab) line :=
          List.dropWhile_sublist _
        exact hsub.subset (by rw [hd]; exact List.mem_cons_self d rest)
      exact ⟨d, hdm, wordChar_not_ws h.2⟩

/-- The line splitter never returns an empty list. -/
theorem splitLinesRNGo_ne_nil :
    ∀ (l cur : Str) (b : Bool), splitLinesRNGo cur b l ≠ [] := by
  intro l
  induction l with
  | nil => intro cur b; simp [splitLinesRNGo]
  | cons d ds ih =>
    intro cur b
    cases b <;> by_cases hd : crOrLf d = true <;>
      simp [splitLinesRNGo, hd] <;> apply ih

/-- Every character of every piece returned by the line splitter comes from
the accumulator or from the input. -/
theorem mem_splitLinesRNGo {x : Str} {c : Char} :
    ∀ (l cur : Str) (b : Bool), x ∈ splitLinesRNGo cur b l → c ∈ x →
      c ∈ cur ∨ c ∈ l := by
  intro l
  induction l with
  | nil =>
    intro cur b hx hc
    simp [splitLinesRNGo] at hx
    subst hx
    exact Or.inl hc
  | cons d ds ih =>
    intro cur b hx hc
    cases b <;> by_cases hd : crOrLf d = true <;>
        simp only [splitLinesRNGo, hd, if_true, if_false, Bool.false_eq_true,
          not_false_eq_true, if_neg, if_pos, List.mem_cons] at hx
    · rcases hx with rfl | hx
      · exact Or.inl hc
      · rcases ih [] true hx hc with h | h
        · simp at h
        · exact Or.inr (List.mem_cons_of_mem d h)
    · rcases ih (cur ++ [d]) false hx hc with h | h
      · rcases List.mem_append.mp h with h | h
        · exact Or.inl h
        · simp at h
          simp [h]
      · exact Or.inr (List.mem_cons_of_mem d h)
    · rcases ih cur true hx hc with h | h
      · exact Or.inl h
      · exact Or.inr (List.mem_cons_of_mem d h)
    · rcases ih (cur ++ [d]) false hx hc with h | h
      · rcases List.mem_append.mp h with h | h
        · exact Or.inl h
        · simp at h
          simp [h]
      · exact Or.inr (List.mem_cons_of_mem d h)

/-- A trailer-only paragraph never trims to the empty string: its first line
matches the grammar, so the paragraph contains a non-whitespace character. -/
theorem jsTrim_ne_nil_of_isTrailerOnly {p : Str} (h : isTrailerOnly p = true) :
    jsTrim p ≠ [] := by
  unfold isTrailerOnly at h
  cases hs : splitLinesRN p with
  | nil => exact absurd hs (splitLinesRNGo_ne_nil p [] false)
  | cons line rest =>
    have hline : matchesTrailerLine line = true := by
      rw [hs] at h
      exact (List.all_eq_true.mp h) line (List.mem_cons_self line rest)
    obtain ⟨c, hcl, hcw⟩ := matchesTrailerLine_has_nonws hline
    have hcp : c ∈ p := by
      have hx : line ∈ splitLinesRNGo [] false p := by
        rw [← splitLinesRN, hs]
        exact List.mem_cons_self line rest
      rcases mem_splitLinesRNGo p [] false hx hcl with h2 | h2
      · simp at h2
      · exact h2
    exact jsTrim_ne_nil hcp hcw

/-- CR and LF are line terminators. -/
theorem crOrLf_lineTerm {c : Char} (h : crOrLf c = true) :
    jsLineTerm c = true := by
  simp only [crOrLf, Bool.or_eq_true, decide_eq_true_eq] at h
  rcases h with rfl | rfl <;> decide

/-- A message whose only line terminator is LF, with no leading LF and no two
adjacent LFs, is never split: it forms a single paragraph. -/
theorem splitParagraphsGo_no_break :
    ∀ (m cur : Str) (atLS : Bool),
      (∀ x ∈ m, jsLineTerm x = true → x = '\n') →
      hasDoubleNL m = false →
      (atLS = true → startsNL m = false) →
      splitParagraphsGo cur atLS false m = [cur ++ m] := by
  intro m
  induction m with
  | nil => intro cur atLS _ _ _; simp [splitParagraphsGo]
  | cons c cs ih =>
    intro cur atLS honly hdd hstart
    have hnotbreak : (atLS && crOrLf c) = false := by
      by_cases hLS : atLS = true
      · rw [hLS, Bool.true_and]
        cases hcr : crOrLf c with
        | false => rfl
        | true =>
          have hc : c = '\n' :=
            honly c (List.mem_cons_self c cs) (crOrLf_lineTerm hcr)
          subst hc
          have hsn := hstart hLS
          simp [startsNL] at hsn
      · rw [Bool.of_not_eq_true hLS]
        rfl
    have step : splitParagraphsGo cur atLS false (c :: cs) =
        splitParagraphsGo (cur ++ [c]) (jsLineTerm c) false cs := by
      rw [splitParagraphsGo]
      simp [hnotbreak]
    rw [step, ih (cur ++ [c]) (jsLineTerm c)
      (fun x hx hterm => honly x (List.mem_cons_of_mem c hx) hterm)
      (by cases cs with
          | nil => rfl
          | cons d ds =>
            rw [hasDoubleNL] at hdd
            exact (Bool.or_eq_false_iff.mp hdd).2)
      ?_]
    · simp
    · intro hterm
      have hc : c = '\n' := honly c (List.mem_cons_self c cs) hterm
      subst hc
      cases cs with
      | nil => simp [startsNL]
      | cons d ds =>
        cases hdc : decide (d = '\n') with
        | false =>
          unfold startsNL
          split
          · rename_i heq
            injection heq with h1 _
            exact absurd (h1 ▸ rfl) (of_decide_eq_false hdc)
          · rfl
        | true =>
          have hdn : d = '\n' := of_decide_eq_true hdc
          subst hdn
          rw [hasDoubleNL] at hdd
          simp at hdd

/-- A character that is not a line terminator is not CR or LF. -/
theorem not_crOrLf_of_not_lineTerm {c : Char} (h : jsLineTerm c = false) :
    crOrLf c = false := by
  cases hc : crOrLf c with
  | false => rfl
  | true => rw [crOrLf_lineTerm hc] at h; exact absurd h (by simp)

/-- Consuming a terminator-free prefix never splits: the prefix is appended to
the current segment and scanning continues on the remainder with the
line-start flag cleared (unless the prefix was empty). -/
theorem splitParagraphsGo_plain :
    ∀ (b cur : Str) (atLS : Bool) (rest : Str),
      (∀ x ∈ b, jsLineTerm x = false) →
      splitParagraphsGo cur atLS false (b ++ rest) =
        splitParagraphsGo (cur ++ b) (if b.isEmpty then atLS else false) false
          rest := by
  intro b
  induction b with
  | nil => intro cur atLS rest _; simp
  | cons c cs ih =>
    intro cur atLS rest hb
    have hterm : jsLineTerm c = false := hb c (List.mem_cons_self c cs)
    have hnb : (atLS && crOrLf c) = false := by
      rw [not_crOrLf_of_not_lineTerm hterm]
      simp
    have step : splitParagraphsGo cur atLS false ((c :: cs) ++ rest) =
        splitParagraphsGo (cur ++ [c]) (jsLineTerm c) false (cs ++ rest) := by
      rw [List.cons_append, splitParagraphsGo]
      simp [hnb]
    rw [step, hterm,
      ih (cur ++ [c]) false rest
        (fun x hx => hb x (List.mem_cons_of_mem c hx))]
    simp

/-- With more than one element, dropping the last element keeps the head. -/
theorem dropLast_headD {l : List Str} (h : 1 < l.length) :
    l.dropLast.headD [] = l.headD [] := by
  cases l with
  | nil => simp at h
  | cons x xs =>
    cases xs with
    | nil => simp at h
    | cons y ys => simp [List.dropLast]

/-- The subject produced by `parseCommitMessage` is always the trimmed first
paragraph (footer extraction only ever removes the last paragraph). -/
theorem parse_subject_eq (m : Str) :
    (parseCommitMessage m).subject =
      jsTrim ((splitParagraphs m).headD []) := by
  unfold parseCommitMessage
  dsimp only
  by_cases hx : (if 1 < (splitParagraphs m).length then
      isTrailerOnly ((splitParagraphs m).getLastD []) else false) = true
  · by_cases hlen : 1 < (splitParagraphs m).length
    · simp only [hx, if_true, if_pos]
      rw [dropLast_headD hlen]
    · rw [if_neg hlen] at hx
      exact absurd hx (by simp)
  · simp only [Bool.not_eq_true] at hx
    rw [hx]
    simp

/-! ## The claims -/

/-- C7: the extracted field offsets satisfy the cumulative chaining equations
(an absent field contributing length zero), and whenever the structural match
succeeds the five captures concatenate back to the whole first line, so the
fields partition it contiguously with no gaps. -/
theorem claim_C7 (c : Commit) :
    ((createRawConventionalCommit c).scope.index =
        (createRawConventionalCommit c).type.index +
          elementLength (createRawConventionalCommit c).type ∧
      (createRawConventionalCommit c).breaking.index =
        (createRawConventionalCommit c).scope.index +
          elementLength (createRawConventionalCommit c).scope ∧
      (createRawConventionalCommit c).seperator.index =
        (createRawConventionalCommit c).breaking.index +
          elementLength (createRawConventionalCommit c).breaking ∧
      (createRawConventionalCommit c).description.index =
        (createRawConventionalCommit c).seperator.index +
          elementLength (createRawConventionalCommit c).seperator) ∧
    (∀ g, execConventionalCommitRegex (firstLineOf c.subject) = some g →
      g.type ++ g.scope.getD [] ++ g.breaking.getD [] ++
        g.seperatorGrp.getD [] ++ g.subjectGrp.getD [] =
        firstLineOf c.subject) := by
  constructor
  · exact ⟨rfl, rfl, rfl, rfl⟩
  · intro g hg
    exact (execCC_eq_some hg).2.2.2.2

/-- Witness for C7 at a concrete subject line: the captured fields
concatenate to the full line. -/
theorem claim_C7_witness :
    ("feat").data ++ ("(core)").data ++ ['!'] ++ ((": ").data) ++
        ("done").data =
      firstLineOf (("feat(core)!: done").data) :=
  (claim_C7
      { hash := ("0a0b0c0d").data, subject := ("feat(core)!: done").data,
        body := none, footer := none,
        raw := ("feat(core)!: done").data }).2
    ⟨("feat").data, some (("(core)").data), some ['!'], some ((": ").data),
      some (("done").data)⟩
    (by decide)

/-- C4: the breaking accessor is true exactly when the breaking-marker field
was captured on the subject line or the footer mapping contains the key
`BREAKING CHANGE` or `BREAKING-CHANGE` (case-sensitively); this holds for
every options value and every rule state, so it is independent of whether the
commit is valid. -/
theorem claim_C4 (c : Commit) (st : RuleState)
    (opts : IConventionalCommitOptions) :
    (fromCommitWithState st c opts).1.breaking =
      ((createRawConventionalCommit c).breaking.value.isSome ||
        (footerHasKey c.footer (("BREAKING CHANGE").data) ||
         footerHasKey c.footer (("BREAKING-CHANGE").data))) := by
  have hraw : (fromCommitWithState st c opts).1.raw =
      createRawConventionalCommit c := rfl
  rw [ConventionalCommit.breaking, hraw]
  unfold breakingGetter
  obtain ⟨hcommit, -, -, -, -, -, -⟩ := createRaw_values c
  obtain ⟨-, hshape, -⟩ := createRaw_shapes c
  rw [hcommit]
  congr 1
  · rcases hshape with hnone | ⟨ws, hws, hsome⟩
    · rw [hnone]; rfl
    · rw [hsome]
      simp [jsTrimEnd_bang hws]
  · cases hf : c.footer with
    | none => simp [footerHasKey]
    | some f => simp [footerHasKey]

/-- Appending a non-whitespace character protects the whole string from
`trimEnd`. -/
theorem jsTrimEnd_of_last_not_ws {l : Str} {c : Char}
    (h : jsWhitespaceChar c = false) : jsTrimEnd (l ++ [c]) = l ++ [c] := by
  unfold jsTrimEnd
  rw [List.reverse_append]
  simp [List.dropWhile_cons, h]

/-- Removing all parentheses from a well-parenthesised scope capture equals
removing the opening parentheses of its inner text. -/
theorem filter_parens_scope (inner : Str)
    (hinner : ∀ x ∈ inner, x ≠ ')') :
    (('(' :: inner) ++ [')']).filter (fun c => !(c = '(' || c = ')')) =
      inner.filter (fun x => !(x = '(')) := by
  rw [List.filter_append, List.filter_cons]
  simp only [decide_eq_true_eq]
  norm_num
  exact List.filter_congr (fun x hx => by simp [hinner x hx])

/-- Counterexample to C9 as stated: for the subject line `feat(a(b): x` the
captured scope field is `(a(b)`; stripping exactly the surrounding
parentheses would give `a(b`, but the accessor removes every parenthesis
character and returns `ab`. -/
theorem claim_C9_counterexample :
    (createRawConventionalCommit
        { hash := ("01ab2cd3").data, subject := ("feat(a(b): x").data,
          body := none, footer := none,
          raw := ("feat(a(b): x").data }).scope.value =
      some (("(a(b)").data) ∧
    scopeGetter
        (createRawConventionalCommit
          { hash := ("01ab2cd3").data, subject := ("feat(a(b): x").data,
            body := none, footer := none,
            raw := ("feat(a(b): x").data }) = some (("ab").data) ∧
    ("ab").data ≠ ("a(b").data := by
  refine ⟨by decide, by decide, by decide⟩

/-- C9 amended: the scope accessor returns undefined when no scope was
captured; otherwise the captured field has the shape `(inner)` plus trailing
whitespace, and the accessor returns `inner` with every residual parenthesis
character (necessarily an opening one) removed — which equals plain
surrounding-parenthesis stripping whenever `inner` contains no parenthesis. -/
theorem claim_C9_amended (c : Commit) (st : RuleState)
    (opts : IConventionalCommitOptions) :
    ((createRawConventionalCommit c).scope.value = none →
      (fromCommitWithState st c opts).1.scope = none) ∧
    (∀ v, (createRawConventionalCommit c).scope.value = some v →
      ∃ inner ws, v = '(' :: (inner ++ ')' :: ws) ∧
        (∀ x ∈ inner, x ≠ ')') ∧ (∀ x ∈ ws, jsWhitespaceChar x = true) ∧
        (fromCommitWithState st c opts).1.scope =
          some (inner.filter (fun x => !(x = '(')))) := by
  have hraw : (fromCommitWithState st c opts).1.raw =
      createRawConventionalCommit c := rfl
  constructor
  · intro hnone
    rw [ConventionalCommit.scope, hraw]
    unfold scopeGetter
    rw [hnone]
    rfl
  · intro v hv
    obtain ⟨hshape, -, -⟩ := createRaw_shapes c
    rw [hv] at hshape
    rcases hshape with habs | ⟨inner, ws, hinner, hws, heq⟩
    · exact absurd habs (by simp)
    · injection heq with heq
      refine ⟨inner, ws, heq, hinner, hws, ?_⟩
      rw [ConventionalCommit.scope, hraw]
      unfold scopeGetter
      rw [hv]
      simp only [Option.map_some', Option.some.injEq]
      rw [heq]
      have hassoc : ('(' :: (inner ++ ')' :: ws) : Str) =
          (('(' :: inner) ++ [')']) ++ ws := by simp
      rw [hassoc, jsTrimEnd_append_ws hws,
        jsTrimEnd_of_last_not_ws (by decide)]
      exact filter_parens_scope inner hinner

/-- Witness for the amended C9 at the subject `feat(New York): x`: the
accessor yields `New York`. -/
theorem claim_C9_amended_witness :
    ∃ inner ws, (("(New York)").data : Str) = '(' :: (inner ++ ')' :: ws) ∧
      (∀ x ∈ inner, x ≠ ')') ∧ (∀ x ∈ ws, jsWhitespaceChar x = true) ∧
      (fromCommitWithState initialRuleState
          { hash := ("01ab2cd3").data,
            subject := ("feat(New York): x").data, body := none,
            footer := none, raw := ("feat(New York): x").data }
          noOptions).1.scope =
        some (inner.filter (fun x => !(x = '('))) :=
  (claim_C9_amended
      { hash := ("01ab2cd3").data, subject := ("feat(New York): x").data,
        body := none, footer := none,
        raw := ("feat(New York): x").data }
      initialRuleState noOptions).2 (("(New York)").data) (by decide)

/-- Counterexample to C3 as stated: for the subject `: hello` the type field
is captured as the empty string and the caller supplies no custom types, yet
EC-02 emits an error-severity diagnostic (the claim would have it emit
nothing for an empty type, and at most a warning without custom types). -/
theorem claim_C3_counterexample :
    (createRawConventionalCommit
        { hash := ("01ab2cd3").data, subject := (": hello").data,
          body := none, footer := none,
          raw := (": hello").data }).type.value = some [] ∧
    (validateEC02 initialRuleState.ec02
        (createRawConventionalCommit
          { hash := ("01ab2cd3").data, subject := (": hello").data,
            body := none, footer := none,
            raw := (": hello").data })
        noOptions).1.map (fun m => m.level) = [DiagLevel.error] := by
  refine ⟨by decide, by decide⟩

/-- C3 amended: EC-02 compares the lowercased, end-trimmed type against the
effective set consisting of feat, fix and the deduplicated custom types
(so feat and fix are always accepted); it emits nothing when the type is
undefined, fails the noun test, or is in the effective set; otherwise it
emits exactly one diagnostic whose severity is: error when the type trims to
nothing, error when custom types beyond feat/fix were supplied, and warning
otherwise. -/
theorem claim_C3_amended (c : Commit) (d : Str)
    (opts : IConventionalCommitOptions) :
    ((createRawConventionalCommit c).type.value = none ∨
        (!isNoun ((createRawConventionalCommit c).type.value.getD [])) = true ∨
        (("feat").data :: ("fix").data ::
            (jsSetDedup (opts.types.getD [])).filter
              (fun t => !(t = ("feat").data || t = ("fix").data))).contains
          (jsTrimEnd (jsToLowerAscii
            ((createRawConventionalCommit c).type.value.getD []))) = true →
      (validateEC02 d (createRawConventionalCommit c) opts).1 = []) ∧
    (¬((createRawConventionalCommit c).type.value = none ∨
        (!isNoun ((createRawConventionalCommit c).type.value.getD [])) = true ∨
        (("feat").data :: ("fix").data ::
            (jsSetDedup (opts.types.getD [])).filter
              (fun t => !(t = ("feat").data || t = ("fix").data))).contains
          (jsTrimEnd (jsToLowerAscii
            ((createRawConventionalCommit c).type.value.getD []))) = true) →
      ((jsTrim ((createRawConventionalCommit c).type.value.getD [])).isEmpty =
          true →
        (validateEC02 d (createRawConventionalCommit c) opts).1.map
            (fun m => m.level) = [DiagLevel.error]) ∧
      ((jsTrim ((createRawConventionalCommit c).type.value.getD [])).isEmpty =
          false →
        (0 < ((jsSetDedup (opts.types.getD [])).filter
              (fun t => !(t = ("feat").data || t = ("fix").data))).length →
          (validateEC02 d (createRawConventionalCommit c) opts).1.map
              (fun m => m.level) = [DiagLevel.error]) ∧
        (((jsSetDedup (opts.types.getD [])).filter
              (fun t => !(t = ("feat").data || t = ("fix").data))).length = 0 →
          (validateEC02 d (createRawConventionalCommit c) opts).1.map
              (fun m => m.level) = [DiagLevel.warning]))) := by
  constructor
  · intro h1
    unfold validateEC02
    rw [if_pos h1]
  · intro h1
    constructor
    · intro h2
      unfold validateEC02
      rw [if_neg h1, if_pos h2]
      rfl
    · intro h2
      constructor
      · intro h3
        unfold validateEC02
        rw [if_neg h1, if_neg (by simp [h2]), if_pos h3]
        rfl
      · intro h3
        unfold validateEC02
        rw [if_neg h1, if_neg (by simp [h2]), if_neg (by omega)]
        rfl

/-- Witness for the amended C3 at the subject `chore: unknown` with no
custom types: EC-02 emits one warning. -/
theorem claim_C3_amended_witness :
    (validateEC02 initialRuleState.ec02
        (createRawConventionalCommit
          { hash := ("01ab2cd3").data, subject := ("chore: unknown").data,
            body := none, footer := none,
            raw := ("chore: unknown").data })
        noOptions).1.map (fun m => m.level) = [DiagLevel.warning] :=
  (((claim_C3_amended
      { hash := ("01ab2cd3").data, subject := ("chore: unknown").data,
        body := none, footer := none, raw := ("chore: unknown").data }
      initialRuleState.ec02 noOptions).2 (by decide)).2 (by decide)).2
    (by decide)

/-- Counterexample to C1 as stated: the message `feat: x\n\nKey: v\n` has two
paragraphs and its last paragraph is the single trailer line `Key: v`
followed by the terminating newline, yet no footer is extracted (the code's
line split of the last paragraph produces a trailing empty piece that fails
the grammar). -/
theorem claim_C1_counterexample :
    splitParagraphs (("feat: x\n\nKey: v\n").data) =
      [("feat: x\n").data, ("Key: v\n").data] ∧
    (("Key: v\n").data : Str) = ("Key: v").data ++ ['\n'] ∧
    matchesTrailerLine (("Key: v").data) = true ∧
    (parseCommitMessage (("feat: x\n\nKey: v\n").data)).footer = none := by
  refine ⟨by decide, by decide, by decide, by decide⟩

/-- C1 amended: a footer is extracted exactly when the message splits into
more than one paragraph and every piece of the code's CR/LF-run split of the
last paragraph (including the trailing empty piece contributed by a final
newline, which never matches) satisfies the trailer grammar; only the last
paragraph is ever extracted, and it is extracted trimmed. -/
theorem claim_C1_amended (m : Str) :
    (parseCommitMessage m).footer =
      (if 1 < (splitParagraphs m).length ∧
          isTrailerOnly ((splitParagraphs m).getLastD []) = true then
        some (jsTrim ((splitParagraphs m).getLastD []))
      else none) := by
  unfold parseCommitMessage
  dsimp only
  by_cases h1 : 1 < (splitParagraphs m).length
  · by_cases h2 : isTrailerOnly ((splitParagraphs m).getLastD []) = true
    · rw [if_pos h1, h2, if_pos rfl, if_pos ⟨h1, rfl⟩]
    · rw [if_pos h1]
      rw [Bool.of_not_eq_true h2]
      rw [if_neg (by simp), if_neg (by simp)]
  · rw [if_neg h1, if_neg (by simp), if_neg (fun hc => h1 hc.1)]

/-- Counterexample to C5 as stated: the message consisting of the two lines
`a` and `b` joined by a CRLF line break contains no blank line, yet the
multiline caret matches between CR and LF, so the message splits into two
paragraphs and the body is `b` rather than undefined. -/
theorem claim_C5_counterexample :
    splitROptN (['a', '\r', '\n', 'b']) = [['a'], ['b']] ∧
    (∀ line ∈ splitROptN (['a', '\r', '\n', 'b']), line ≠ ([] : Str)) ∧
    (parseCommitMessage (['a', '\r', '\n', 'b'])).body = some ['b'] := by
  refine ⟨by decide, by decide, by decide⟩

/-- Appending one or two LFs to a non-empty terminator-free subject: the
paragraph split keeps a single content paragraph (plus a final empty one in
the two-LF case). -/
theorem splitParagraphs_append_nl {b : Str}
    (hb : ∀ x ∈ b, jsLineTerm x = false) (hne : b ≠ []) :
    splitParagraphs (b ++ ['\n']) = [b ++ ['\n']] ∧
    splitParagraphs (b ++ ['\n', '\n']) = [b ++ ['\n'], []] := by
  have hbe : b.isEmpty = false := by
    cases b with
    | nil => exact absurd rfl hne
    | cons x xs => rfl
  constructor
  · rw [splitParagraphs, splitParagraphsGo_plain b [] true ['\n'] hb, hbe]
    simp [splitParagraphsGo, jsLineTerm]
  · rw [splitParagraphs, splitParagraphsGo_plain b [] true ['\n', '\n'] hb,
      hbe]
    simp [splitParagraphsGo, jsLineTerm, crOrLf]

/-- C5 amended: for messages restricted to LF line terminators, no blank line
(no leading LF, no two adjacent LFs) means no body and no footer, with the
subject being the trimmed message; and a terminator-free subject followed by
one or two trailing newlines likewise yields no body and no footer. -/
theorem claim_C5_amended :
    (∀ m : Str, (∀ x ∈ m, jsLineTerm x = true → x = '\n') →
      startsNL m = false → hasDoubleNL m = false →
      parseCommitMessage m = ⟨jsTrim m, none, none⟩) ∧
    (∀ b : Str, (∀ x ∈ b, jsLineTerm x = false) →
      parseCommitMessage (b ++ ['\n']) = ⟨jsTrim b, none, none⟩ ∧
      parseCommitMessage (b ++ ['\n', '\n']) = ⟨jsTrim b, none, none⟩) := by
  constructor
  · intro m honly hstart hdd
    have hsplit : splitParagraphs m = [m] := by
      rw [splitParagraphs,
        splitParagraphsGo_no_break m [] true honly hdd (fun _ => hstart)]
      rfl
    unfold parseCommitMessage
    rw [hsplit]
    rfl
  · intro b hb
    by_cases hne : b = []
    · subst hne
      exact ⟨by decide, by decide⟩
    · obtain ⟨h1, h2⟩ := splitParagraphs_append_nl hb hne
      have hws : ∀ c ∈ (['\n'] : Str), jsWhitespaceChar c = true := by decide
      constructor
      · unfold parseCommitMessage
        rw [h1]
        simp
        exact jsTrim_append_ws hws
      · unfold parseCommitMessage
        rw [h2]
        have htr : isTrailerOnly ([] : Str) = false := by decide
        have hbody : jsTrim (joinNL [([] : Str)]) = ([] : Str) := by decide
        simp [htr, hbody]
        exact jsTrim_append_ws hws

/-- Witness for the amended C5: a subject-only message, and a subject with
two trailing newlines, both yield no body and no footer. -/
theorem claim_C5_amended_witness :
    parseCommitMessage (("subject only").data) =
      ⟨jsTrim (("subject only").data), none, none⟩ ∧
    parseCommitMessage (("with newlines").data ++ ['\n', '\n']) =
      ⟨jsTrim (("with newlines").data), none, none⟩ :=
  ⟨claim_C5_amended.1 (("subject only").data) (by decide) (by decide)
      (by decide),
    (claim_C5_amended.2 (("with newlines").data) (by decide)).2⟩

/-- Counterexample to C8 as stated: the one-character message consisting of a
single space is non-empty, yet the constructed subject is the empty
string. -/
theorem claim_C8_counterexample :
    ([' '] : Str) ≠ [] ∧ (parseCommitMessage [' ']).subject = [] := by
  refine ⟨by decide, by decide⟩

/-- The body computed by `parseCommitMessage` is dropped rather than kept
empty. -/
theorem body_ne_some_nil {C : Prop} [Decidable C] (b : Str) :
    (if C then (if b.isEmpty = true then none else some b) else none) ≠
      some ([] : Str) := by
  by_cases hC : C
  · rw [if_pos hC]
    by_cases hb : b.isEmpty = true
    · rw [if_pos hb]
      simp
    · rw [if_neg hb]
      intro h
      injection h with h
      rw [h] at hb
      exact hb rfl
  · rw [if_neg hC]
    simp

/-- C8 amended: the subject is non-empty whenever the first paragraph
contains a non-whitespace character, and the body and footer are never the
empty string (they are undefined when absent). -/
theorem claim_C8_amended (m : Str) :
    (jsTrim ((splitParagraphs m).headD []) ≠ [] →
      (parseCommitMessage m).subject ≠ []) ∧
    (parseCommitMessage m).body ≠ some [] ∧
    (parseCommitMessage m).footer ≠ some [] := by
  refine ⟨?_, ?_, ?_⟩
  · intro h
    rw [parse_subject_eq]
    exact h
  · unfold parseCommitMessage
    dsimp only
    exact body_ne_some_nil _
  · unfold parseCommitMessage
    dsimp only
    intro hcontra
    by_cases hE : (if 1 < (splitParagraphs m).length then
        isTrailerOnly ((splitParagraphs m).getLastD []) else false) = true
    · rw [if_pos hE] at hcontra
      injection hcontra with hcontra
      by_cases hlen : 1 < (splitParagraphs m).length
      · rw [if_pos hlen] at hE
        exact jsTrim_ne_nil_of_isTrailerOnly hE hcontra
      · rw [if_neg hlen] at hE
        exact absurd hE (by simp)
    · rw [if_neg hE] at hcontra
      exact absurd hcontra (by simp)

/-- Witness for the amended C8 at a concrete message with subject, body and
footer paragraphs. -/
theorem claim_C8_amended_witness :
    (parseCommitMessage (("feat: x\n\nbody\n\nKey: value").data)).subject ≠
      [] ∧
    (parseCommitMessage (("feat: x\n\nbody\n\nKey: value").data)).body ≠
      some [] ∧
    (parseCommitMessage (("feat: x\n\nbody\n\nKey: value").data)).footer ≠
      some [] :=
  ⟨(claim_C8_amended (("feat: x\n\nbody\n\nKey: value").data)).1 (by decide),
    (claim_C8_amended (("feat: x\n\nbody\n\nKey: value").data)).2.1,
    (claim_C8_amended (("feat: x\n\nbody\n\nKey: value").data)).2.2⟩

/-- The diagnostics emitted by EC-01 do not depend on the incoming value of
its mutable description: every emitted message uses the freshly interpolated
text. -/
theorem validateEC01_fst_indep (d1 d2 : Str) (raw : IRawConventionalCommit)
    (opts : IConventionalCommitOptions) :
    (validateEC01 d1 raw opts).1 = (validateEC01 d2 raw opts).1 := by
  unfold validateEC01
  by_cases h1 : (jsSetDedup (opts.scopes.getD [])).isEmpty = true
  · rw [if_pos h1, if_pos h1]
  · rw [if_neg h1, if_neg h1]
    by_cases h2 : raw.scope.value = none ∨
        (jsSetDedup (opts.scopes.getD [])).contains
          (stripAllParens (raw.scope.value.getD [])) = true
    · rw [if_pos h2, if_pos h2]
    · rw [if_neg h2, if_neg h2]

/-- The rule engine's collected diagnostics depend only on the commit, the
options and the descriptions of the six rules that never overwrite theirs:
the two overwriting rules (EC-01, EC-02) recompute their text before use. -/
theorem runCommitRules_fst_indep (st1 st2 : RuleState)
    (raw : IRawConventionalCommit) (opts : IConventionalCommitOptions)
    (h01 : st1.cc01 = st2.cc01) (h04 : st1.cc04 = st2.cc04)
    (h05 : st1.cc05 = st2.cc05) (h06 : st1.cc06 = st2.cc06)
    (h15 : st1.cc15 = st2.cc15) :
    (runCommitRules st1 raw opts).1 = (runCommitRules st2 raw opts).1 := by
  unfold runCommitRules
  dsimp only
  rw [h01, h04, h05, h06, h15,
    validateEC01_fst_indep st1.ec01 st2.ec01 raw opts]
  rfl

/-- C10: constructing two `ConventionalCommit` values from the same commit
and the same options — the second one starting from the rule-description
state the first one left behind — yields identical error lists and identical
warning lists: validation is deterministic and idempotent despite the shared
mutable rule descriptions. -/
theorem claim_C10 (c : Commit) (opts : IConventionalCommitOptions) :
    (fromCommitWithState (fromCommitWithState initialRuleState c opts).2 c
        opts).1.errors =
      (fromCommitWithState initialRuleState c opts).1.errors ∧
    (fromCommitWithState (fromCommitWithState initialRuleState c opts).2 c
        opts).1.warnings =
      (fromCommitWithState initialRuleState c opts).1.warnings := by
  have hlist : (runCommitRules
      (fromCommitWithState initialRuleState c opts).2
      (createRawConventionalCommit c) opts).1 =
      (runCommitRules initialRuleState
        (createRawConventionalCommit c) opts).1 :=
    runCommitRules_fst_indep _ initialRuleState
      (createRawConventionalCommit c) opts rfl rfl rfl rfl rfl
  constructor
  · show ((runCommitRules (fromCommitWithState initialRuleState c opts).2
        (createRawConventionalCommit c) opts).1.filter
          (fun d => d.level = DiagLevel.error)) =
      ((runCommitRules initialRuleState (createRawConventionalCommit c)
        opts).1.filter (fun d => d.level = DiagLevel.error))
    rw [hlist]
  · show ((runCommitRules (fromCommitWithState initialRuleState c opts).2
        (createRawConventionalCommit c) opts).1.filter
          (fun d => d.level = DiagLevel.warning)) =
      ((runCommitRules initialRuleState (createRawConventionalCommit c)
        opts).1.filter (fun d => d.level = DiagLevel.warning))
    rw [hlist]
